import Mathlib

/-!
Shallow embedding of the Crazy Eights game engine from `src/src/App.tsx`
and the type declarations in `src/unnamed/part_000` (`types.ts`).

The repository imports `createDeck`, `shuffle`, `isValidMove` and `SUITS`
from a `./constants` module that is not part of the provided sources; those
are modelled from the specification (sections 4.1 and 4.2).  Everything
else is translated directly from `App.tsx`: `initGame`, `handlePlayCard`,
`handleDrawCard`, `handleSuitSelect`, and the AI turn effect (`aiStep`).
State updates performed through `setGameState` become a pure function from
the previous `GameState` to the next one; the cosmetic `message` string is
not part of the game state and is omitted.
-/

namespace CrazyEights

/-- Type `Suit` from `types.ts`: hearts, diamonds, clubs, spades. -/
inductive Suit where
  | hearts
  | diamonds
  | clubs
  | spades
deriving DecidableEq, Repr

/-- Type `Rank` from `types.ts`: A, 2..10, J, Q, K. -/
inductive Rank where
  | A
  | two
  | three
  | four
  | five
  | six
  | seven
  | eight
  | nine
  | ten
  | J
  | Q
  | K
deriving DecidableEq, Repr

/-- Type `Card` from `types.ts`: a unique id plus suit and rank.  The source
uses string ids; distinct naturals model distinct identities. -/
structure Card where
  id : Nat
  suit : Suit
  rank : Rank
deriving DecidableEq, Repr

/-- Type `GameStatus` from `types.ts`. -/
inductive GameStatus where
  | dealing
  | playing
  | suit_selection
  | game_over
deriving DecidableEq, Repr

/-- Type `Turn` from `types.ts`. -/
inductive Turn where
  | player
  | ai
deriving DecidableEq, Repr

/-- Type `GameState` from `types.ts` (the `GameSession` aggregate). -/
structure GameState where
  deck : List Card
  playerHand : List Card
  aiHand : List Card
  discardPile : List Card
  currentTurn : Turn
  status : GameStatus
  winner : Option Turn
  pendingSuitChange : Bool
  currentSuit : Option Suit
deriving DecidableEq, Repr

/-- Index of a suit in the `SUITS` enumeration order, used to give deck
cards distinct ids. -/
def Suit.idx : Suit → Nat
  | .hearts => 0
  | .diamonds => 1
  | .clubs => 2
  | .spades => 3

/-- Index of a rank in the `RANKS` enumeration order. -/
def Rank.idx : Rank → Nat
  | .A => 0
  | .two => 1
  | .three => 2
  | .four => 3
  | .five => 4
  | .six => 5
  | .seven => 6
  | .eight => 7
  | .nine => 8
  | .ten => 9
  | .J => 10
  | .Q => 11
  | .K => 12

/-- Constant `SUITS` from `constants.ts` (visible in `App.tsx` as the suit-picker
enumeration). -/
def SUITS : List Suit := [Suit.hearts, Suit.diamonds, Suit.clubs, Suit.spades]

/-- The thirteen ranks. -/
def RANKS : List Rank :=
  [Rank.A, Rank.two, Rank.three, Rank.four, Rank.five, Rank.six, Rank.seven,
   Rank.eight, Rank.nine, Rank.ten, Rank.J, Rank.Q, Rank.K]

/-- Modelled from the spec: `createDeck()` from the missing `constants.ts`
produces exactly 52 cards, one per (suit, rank) pair, each with a distinct
identity (section 4.1). -/
def createDeck : List Card :=
  (SUITS.map (fun s => RANKS.map (fun r => Card.mk (s.idx * 13 + r.idx) s r))).flatten

/-- Modelled from the spec: `isValidMove(card, topCard, suitOverride)` from
the missing `constants.ts` (section 4.2).  With a non-null override the
move is legal iff the card matches the override suit or is an eight; with
no override it is legal iff the card is an eight or matches the top card's
suit or rank. -/
def isValidMove (card topCard : Card) (suitOverride : Option Suit) : Bool :=
  match suitOverride with
  | some s => card.suit == s || card.rank == Rank.eight
  | none =>
      card.rank == Rank.eight || card.suit == topCard.suit ||
        card.rank == topCard.rank

/-- The initial `useState` value in `App.tsx` (lines 104-114): empty piles,
player to move, status `dealing`. -/
def initialState : GameState :=
  { deck := []
    playerHand := []
    aiHand := []
    discardPile := []
    currentTurn := Turn.player
    status := GameStatus.dealing
    winner := none
    pendingSuitChange := false
    currentSuit := none }

/-- Function `initGame` from `App.tsx` (lines 119-145), applied to the already
shuffled full deck (`shuffle` from the missing `constants.ts` is modelled
by quantifying over permutations of `createDeck`, its contract in section
4.1).  The first 8 cards become the player hand, the next 8 the AI hand;
the remainder is scanned forward for its first non-eight card, which is
spliced out to seed the discard pile.  The source's scanning loop reads
past the end of the array when every remaining card is an eight; that
fallible step is modelled with `Option`. -/
def initGame (fullDeck : List Card) : Option GameState :=
  let playerHand := fullDeck.take 8
  let aiHand := (fullDeck.drop 8).take 8
  let remainingDeck := fullDeck.drop 16
  match remainingDeck.dropWhile (fun c => c.rank == Rank.eight) with
  | [] => none
  | c :: rest =>
      some
        { deck := remainingDeck.takeWhile (fun c => c.rank == Rank.eight) ++ rest
          playerHand := playerHand
          aiHand := aiHand
          discardPile := [c]
          currentTurn := Turn.player
          status := GameStatus.playing
          winner := none
          pendingSuitChange := false
          currentSuit := none }

/-- Function `handlePlayCard` from `App.tsx` (lines 154-192).  The `topCard`
captured at line 151 is `discardPile[length-1]`, modelled with `getLast?`;
a state whose discard pile is empty can only have status `dealing`, where
the guard already rejects, so the `none` branch is a no-op. -/
def handlePlayCard (s : GameState) (card : Card) : GameState :=
  if s.currentTurn != Turn.player || s.status != GameStatus.playing then s
  else
    match s.discardPile.getLast? with
    | none => s
    | some top =>
        if isValidMove card top s.currentSuit then
          let newPlayerHand := s.playerHand.filter (fun c => c.id != card.id)
          let newDiscardPile := s.discardPile ++ [card]
          if newPlayerHand.length == 0 then
            { s with
                playerHand := newPlayerHand
                discardPile := newDiscardPile
                status := GameStatus.game_over
                winner := some Turn.player }
          else if card.rank == Rank.eight then
            { s with
                playerHand := newPlayerHand
                discardPile := newDiscardPile
                status := GameStatus.suit_selection
                pendingSuitChange := true }
          else
            { s with
                playerHand := newPlayerHand
                discardPile := newDiscardPile
                currentTurn := Turn.ai
                currentSuit := none }
        else s

/-- Function `handleDrawCard` from `App.tsx` (lines 194-215).  With an empty deck
the state update inside the `setTimeout` only flips the turn; otherwise the
front deck card moves to the player hand and the turn flips. -/
def handleDrawCard (s : GameState) : GameState :=
  if s.currentTurn != Turn.player || s.status != GameStatus.playing then s
  else
    match s.deck with
    | [] => { s with currentTurn := Turn.ai }
    | drawnCard :: remainingDeck =>
        { s with
            deck := remainingDeck
            playerHand := s.playerHand ++ [drawnCard]
            currentTurn := Turn.ai }

/-- Function `handleSuitSelect` from `App.tsx` (lines 217-226).  Note: the source
has no guard at all — it unconditionally records the suit, returns to
`playing`, clears `pendingSuitChange` and gives the AI the turn. -/
def handleSuitSelect (s : GameState) (suit : Suit) : GameState :=
  { s with
      currentSuit := some suit
      status := GameStatus.playing
      pendingSuitChange := false
      currentTurn := Turn.ai }

/-- The AI's playable cards (`App.tsx` line 232): the hand cards valid
against the given top card and the current suit override. -/
def playableCards (s : GameState) (top : Card) : List Card :=
  s.aiHand.filter (fun c => isValidMove c top s.currentSuit)

/-- The AI's chosen card (`App.tsx` lines 236-237): the first non-eight
among the playable cards, else the first playable card; `none` when no
card is playable. -/
def aiCardToPlay (s : GameState) (top : Card) : Option Card :=
  match (playableCards s top).find? (fun c => c.rank != Rank.eight) with
  | some c => some c
  | none => (playableCards s top).head?

/-- The per-suit tally of a hand (`App.tsx` lines 255-258): `suitCounts`
maps each suit to the number of hand cards of that suit. -/
def suitCount (hand : List Card) (s : Suit) : Nat :=
  (hand.filter (fun c => c.suit == s)).length

/-- The keys of the `suitCounts` record in JavaScript enumeration order:
each suit present in the hand, listed by first occurrence. -/
def suitKeys (hand : List Card) : List Suit :=
  hand.foldl (fun acc c => if c.suit ∈ acc then acc else acc ++ [c.suit]) []

/-- One step of a stable insertion sort by descending count, modelling
`Array.prototype.sort` with comparator `(a, b) => counts[b] - counts[a]`
(stable per the ECMAScript standard): a new element goes before the first
element of strictly smaller count. -/
def insertDescBy (count : Suit → Nat) : List Suit → Suit → List Suit
  | [], s => [s]
  | t :: ts, s =>
      if count t < count s then s :: t :: ts else t :: insertDescBy count ts s

/-- Stable sort of the suit keys by descending count. -/
def sortDescBy (count : Suit → Nat) (l : List Suit) : List Suit :=
  l.foldl (insertDescBy count) []

/-- Value `bestSuit` (`App.tsx` line 260): the head of the keys sorted by
descending count, with the `'hearts'` fallback when the hand is empty. -/
def aiBestSuit (hand : List Card) : Suit :=
  ((sortDescBy (suitCount hand) (suitKeys hand)).head?).getD Suit.hearts

/-- The AI turn effect from `App.tsx` (lines 229-300), as the state update
its timer performs when it fires with the AI to move during `playing`. -/
def aiStep (s : GameState) : GameState :=
  if s.currentTurn == Turn.ai && s.status == GameStatus.playing then
    match s.discardPile.getLast? with
    | none => s
    | some top =>
        match aiCardToPlay s top with
        | some cardToPlay =>
            let newAiHand := s.aiHand.filter (fun c => c.id != cardToPlay.id)
            let newDiscardPile := s.discardPile ++ [cardToPlay]
            if newAiHand.length == 0 then
              { s with
                  aiHand := newAiHand
                  discardPile := newDiscardPile
                  status := GameStatus.game_over
                  winner := some Turn.ai }
            else if cardToPlay.rank == Rank.eight then
              { s with
                  aiHand := newAiHand
                  discardPile := newDiscardPile
                  currentSuit := some (aiBestSuit newAiHand)
                  currentTurn := Turn.player }
            else
              { s with
                  aiHand := newAiHand
                  discardPile := newDiscardPile
                  currentTurn := Turn.player
                  currentSuit := none }
        | none =>
            match s.deck with
            | [] => { s with currentTurn := Turn.player }
            | drawnCard :: remainingDeck =>
                { s with
                    deck := remainingDeck
                    aiHand := s.aiHand ++ [drawnCard]
                    currentTurn := Turn.player }
  else s

/-- All cards of a session, as a multiset:
deck ∪ playerHand ∪ aiHand ∪ discardPile. -/
def cardsOf (s : GameState) : Multiset Card :=
  (s.deck : Multiset Card) + (s.playerHand : Multiset Card) +
    (s.aiHand : Multiset Card) + (s.discardPile : Multiset Card)

/-- Invariant 1 of the data model: the session's cards are exactly the
52-card deck, no duplicates, no omissions. -/
def DeckComplete (s : GameState) : Prop :=
  cardsOf s = (createDeck : Multiset Card)

instance (s : GameState) : Decidable (DeckComplete s) :=
  inferInstanceAs (Decidable (cardsOf s = (createDeck : Multiset Card)))

/-- States reachable through the engine: the mount-time initial state, any
completed deal of a shuffled deck, and closure under the four actions.
`handlePlayCard` is only ever invoked by the presentation layer on a card
of the player hand (`App.tsx` line 418). -/
inductive Reachable : GameState → Prop where
  | boot : Reachable initialState
  | deal : ∀ fullDeck st, fullDeck.Perm createDeck → initGame fullDeck = some st →
      Reachable st
  | play : ∀ s card, Reachable s → card ∈ s.playerHand →
      Reachable (handlePlayCard s card)
  | draw : ∀ s, Reachable s → Reachable (handleDrawCard s)
  | select : ∀ s suit, Reachable s → Reachable (handleSuitSelect s suit)
  | ai : ∀ s, Reachable s → Reachable (aiStep s)

/-- The dealt state obtained from the identity shuffle: a concrete
completed deal used as a reachable sample state. -/
def stDeal : GameState := (initGame createDeck).getD initialState

/-- C2: `isValidMove(card, topCard, suitOverride)` returns true iff: with a
non-null override, the card matches the override suit or is an eight; with
a null override, the card is an eight or matches the top card's suit or
rank.  In particular every eight is always valid. -/
theorem claim2_isValidMove_spec :
    (∀ (card top : Card) (s : Suit),
        isValidMove card top (some s) = true ↔
          (card.suit = s ∨ card.rank = Rank.eight)) ∧
    (∀ (card top : Card),
        isValidMove card top none = true ↔
          (card.rank = Rank.eight ∨ card.suit = top.suit ∨
            card.rank = top.rank)) ∧
    (∀ (card top : Card) (o : Option Suit), card.rank = Rank.eight →
        isValidMove card top o = true) := by
  refine ⟨fun card top s => ?_, fun card top => ?_, fun card top o h => ?_⟩
  · simp [isValidMove]
  · simp [isValidMove, or_assoc]
  · cases o <;> simp [isValidMove, h]

/-- Witness for C2 at concrete cards: the eight of hearts is valid on the
ace of spades with no override. -/
theorem claim2_isValidMove_spec_witness :
    isValidMove (Card.mk 7 Suit.hearts Rank.eight)
      (Card.mk 39 Suit.spades Rank.A) none = true :=
  claim2_isValidMove_spec.2.2 _ _ none rfl

/-- C3: an accepted play that empties the acting hand ends the game with
the actor as winner and the turn unchanged, for the player and for the AI,
regardless of the played card's rank (so also for an eight: the win check
precedes any suit-selection step). -/
theorem claim3_win_on_empty_hand :
    (∀ s card top, s.currentTurn = Turn.player → s.status = GameStatus.playing →
        s.discardPile.getLast? = some top →
        isValidMove card top s.currentSuit = true →
        s.playerHand.filter (fun c => c.id != card.id) = [] →
        handlePlayCard s card =
          { s with
              playerHand := []
              discardPile := s.discardPile ++ [card]
              status := GameStatus.game_over
              winner := some Turn.player }) ∧
    (∀ s top c, s.currentTurn = Turn.ai → s.status = GameStatus.playing →
        s.discardPile.getLast? = some top → aiCardToPlay s top = some c →
        s.aiHand.filter (fun x => x.id != c.id) = [] →
        aiStep s =
          { s with
              aiHand := []
              discardPile := s.discardPile ++ [c]
              status := GameStatus.game_over
              winner := some Turn.ai }) := by
  constructor
  · intro s card top ht hs htop hval hempty
    simp [handlePlayCard, ht, hs, htop, hval, hempty]
  · intro s top c ht hs htop hchoice hempty
    simp [aiStep, ht, hs, htop, hchoice, hempty]

/-- Witness for C3: in a concrete state where the player holds only the
eight of hearts, playing it wins immediately for the player, and in a
concrete state where the AI holds only the seven of clubs, its step wins
for the AI. -/
theorem claim3_win_on_empty_hand_witness :
    (handlePlayCard
        { initialState with
            currentTurn := Turn.player
            status := GameStatus.playing
            playerHand := [Card.mk 7 Suit.hearts Rank.eight]
            aiHand := [Card.mk 0 Suit.hearts Rank.A]
            discardPile := [Card.mk 39 Suit.spades Rank.A] }
        (Card.mk 7 Suit.hearts Rank.eight) =
      { initialState with
          currentTurn := Turn.player
          status := GameStatus.game_over
          playerHand := []
          aiHand := [Card.mk 0 Suit.hearts Rank.A]
          discardPile := [Card.mk 39 Suit.spades Rank.A,
            Card.mk 7 Suit.hearts Rank.eight]
          winner := some Turn.player }) ∧
    (aiStep
        { initialState with
            currentTurn := Turn.ai
            status := GameStatus.playing
            playerHand := [Card.mk 0 Suit.hearts Rank.A]
            aiHand := [Card.mk 32 Suit.clubs Rank.seven]
            discardPile := [Card.mk 26 Suit.clubs Rank.A] }
      =
      { initialState with
          currentTurn := Turn.ai
          status := GameStatus.game_over
          playerHand := [Card.mk 0 Suit.hearts Rank.A]
          aiHand := []
          discardPile := [Card.mk 26 Suit.clubs Rank.A,
            Card.mk 32 Suit.clubs Rank.seven]
          winner := some Turn.ai }) := by
  constructor
  · exact claim3_win_on_empty_hand.1 _ _ _ rfl rfl rfl (by decide) (by decide)
  · exact claim3_win_on_empty_hand.2 _ _ _ rfl rfl rfl (by decide) (by decide)

/-- C4 counterexample: `handleSuitSelect` has no status guard in the
source, so invoking it in a reachable state whose status is `playing`
(for instance right after a fresh deal) mutates the state instead of being
a no-op. -/
theorem claim4_counterexample :
    Reachable stDeal ∧ stDeal.status ≠ GameStatus.suit_selection ∧
      handleSuitSelect stDeal Suit.hearts ≠ stDeal :=
  ⟨Reachable.deal createDeck stDeal (List.Perm.refl _) rfl,
    by decide, by decide⟩

/-- C4 (amended): illegal `playCard` invocations (wrong turn, wrong
status, or failing `isValidMove`) and illegal `drawCard` invocations
(wrong turn or wrong status) leave the state unchanged, while
`handleSuitSelect` unconditionally records the suit, resumes `playing`,
clears the pending flag and passes the turn to the AI, whatever the
current status — it is guarded only by the presentation layer, which
shows the suit picker solely during `suit_selection`. -/
theorem claim4_illegal_actions :
    (∀ s card, (s.currentTurn ≠ Turn.player ∨ s.status ≠ GameStatus.playing) →
        handlePlayCard s card = s) ∧
    (∀ s card top, s.discardPile.getLast? = some top →
        isValidMove card top s.currentSuit = false →
        handlePlayCard s card = s) ∧
    (∀ s, (s.currentTurn ≠ Turn.player ∨ s.status ≠ GameStatus.playing) →
        handleDrawCard s = s) ∧
    (∀ s suit, handleSuitSelect s suit =
        { s with
            currentSuit := some suit
            status := GameStatus.playing
            pendingSuitChange := false
            currentTurn := Turn.ai }) := by
  refine ⟨fun s card h => ?_, fun s card top htop hval => ?_,
    fun s h => ?_, fun s suit => rfl⟩
  · rcases h with h | h <;> simp [handlePlayCard, h]
  · by_cases ht : s.currentTurn = Turn.player
    · by_cases hs : s.status = GameStatus.playing
      · simp [handlePlayCard, ht, hs, htop, hval]
      · simp [handlePlayCard, hs]
    · simp [handlePlayCard, ht]
  · rcases h with h | h <;> simp [handleDrawCard, h]

/-- Witness for C4 (amended): a play out of turn, a play of an invalid
card, and a draw out of turn are all no-ops on a concrete state, and
`handleSuitSelect` rewrites the fields as described. -/
theorem claim4_illegal_actions_witness :
    (handlePlayCard { initialState with currentTurn := Turn.ai }
        (Card.mk 0 Suit.hearts Rank.A) = { initialState with currentTurn := Turn.ai }) ∧
    (handlePlayCard
        { initialState with
            status := GameStatus.playing
            playerHand := [Card.mk 0 Suit.hearts Rank.A]
            discardPile := [Card.mk 39 Suit.spades Rank.two] }
        (Card.mk 0 Suit.hearts Rank.A) =
      { initialState with
          status := GameStatus.playing
          playerHand := [Card.mk 0 Suit.hearts Rank.A]
          discardPile := [Card.mk 39 Suit.spades Rank.two] }) ∧
    (handleDrawCard { initialState with currentTurn := Turn.ai } =
      { initialState with currentTurn := Turn.ai }) ∧
    (handleSuitSelect initialState Suit.spades =
      { initialState with
          currentSuit := some Suit.spades
          status := GameStatus.playing
          pendingSuitChange := false
          currentTurn := Turn.ai }) := by
  refine ⟨claim4_illegal_actions.1 _ _ (Or.inl (by decide)),
    claim4_illegal_actions.2.1 _ _ _ rfl (by decide),
    claim4_illegal_actions.2.2.1 _ (Or.inl (by decide)),
    claim4_illegal_actions.2.2.2 _ _⟩

/-- C8: drawing with an empty deck during `playing` on the actor's turn
forfeits the turn: only `currentTurn` flips, every other field is
unchanged — for the player via `handleDrawCard` and for the AI when it has
no playable card and the deck is empty. -/
theorem claim8_empty_deck_forfeit :
    (∀ s, s.currentTurn = Turn.player → s.status = GameStatus.playing →
        s.deck = [] → handleDrawCard s = { s with currentTurn := Turn.ai }) ∧
    (∀ s top, s.currentTurn = Turn.ai → s.status = GameStatus.playing →
        s.discardPile.getLast? = some top → playableCards s top = [] →
        s.deck = [] → aiStep s = { s with currentTurn := Turn.player }) := by
  constructor
  · intro s ht hs hd
    simp [handleDrawCard, ht, hs, hd]
  · intro s top ht hs htop hp hd
    simp [aiStep, ht, hs, htop, aiCardToPlay, hp, hd]

/-- Witness for C8: concrete empty-deck states where the player's draw and
the AI's forced draw each flip only the turn. -/
theorem claim8_empty_deck_forfeit_witness :
    (handleDrawCard
        { initialState with
            status := GameStatus.playing
            playerHand := [Card.mk 0 Suit.hearts Rank.A]
            discardPile := [Card.mk 39 Suit.spades Rank.two] } =
      { initialState with
          status := GameStatus.playing
          playerHand := [Card.mk 0 Suit.hearts Rank.A]
          discardPile := [Card.mk 39 Suit.spades Rank.two]
          currentTurn := Turn.ai }) ∧
    (aiStep
        { initialState with
            currentTurn := Turn.ai
            status := GameStatus.playing
            aiHand := [Card.mk 0 Suit.hearts Rank.A]
            discardPile := [Card.mk 39 Suit.spades Rank.two] } =
      { initialState with
          currentTurn := Turn.player
          status := GameStatus.playing
          aiHand := [Card.mk 0 Suit.hearts Rank.A]
          discardPile := [Card.mk 39 Suit.spades Rank.two] }) := by
  constructor
  · exact claim8_empty_deck_forfeit.1 _ rfl rfl rfl
  · exact claim8_empty_deck_forfeit.2 _ (Card.mk 39 Suit.spades Rank.two)
      rfl rfl rfl (by decide) rfl

/-- A concrete full-deck session used as C5's counterexample: the AI has
just played the eight of clubs and declared hearts, the player holds only
the five of hearts, and every one of the 52 cards is accounted for. -/
def sEx5 : GameState :=
  { deck := createDeck.filter
      (fun c => c.id != 4 && c.id != 0 && c.id != 33 && c.id != 47)
    playerHand := [Card.mk 4 Suit.hearts Rank.five]
    aiHand := [Card.mk 0 Suit.hearts Rank.A]
    discardPile := [Card.mk 47 Suit.spades Rank.nine, Card.mk 33 Suit.clubs Rank.eight]
    currentTurn := Turn.player
    status := GameStatus.playing
    winner := none
    pendingSuitChange := false
    currentSuit := some Suit.hearts }

/-- C5 counterexample: the winning branch of `handlePlayCard` does not
clear `currentSuit`, so an accepted non-eight play that empties the hand
leaves the suit override non-null.  In `sEx5` the player's five of hearts
is accepted (the discard pile grows by it) yet `currentSuit` stays
`some hearts`. -/
theorem claim5_counterexample :
    DeckComplete sEx5 ∧
      (Card.mk 4 Suit.hearts Rank.five).rank ≠ Rank.eight ∧
      (handlePlayCard sEx5 (Card.mk 4 Suit.hearts Rank.five)).discardPile =
        sEx5.discardPile ++ [Card.mk 4 Suit.hearts Rank.five] ∧
      (handlePlayCard sEx5 (Card.mk 4 Suit.hearts Rank.five)).status =
        GameStatus.game_over ∧
      (handlePlayCard sEx5 (Card.mk 4 Suit.hearts Rank.five)).currentSuit ≠ none := by
  refine ⟨by decide, by decide, by decide, by decide, by decide⟩

/-- C5 (amended): after every accepted non-eight play that leaves the
acting hand non-empty — by the player or by the AI — `currentSuit` is
null; when the play empties the hand the game ends and the override may
retain its prior value. -/
theorem claim5_noneight_clears_override :
    (∀ s card top, s.currentTurn = Turn.player → s.status = GameStatus.playing →
        s.discardPile.getLast? = some top →
        isValidMove card top s.currentSuit = true →
        card.rank ≠ Rank.eight →
        s.playerHand.filter (fun c => c.id != card.id) ≠ [] →
        (handlePlayCard s card).currentSuit = none) ∧
    (∀ s top c, s.currentTurn = Turn.ai → s.status = GameStatus.playing →
        s.discardPile.getLast? = some top → aiCardToPlay s top = some c →
        c.rank ≠ Rank.eight →
        s.aiHand.filter (fun x => x.id != c.id) ≠ [] →
        (aiStep s).currentSuit = none) := by
  constructor
  · intro s card top ht hs htop hval hrank hne
    simp [handlePlayCard, ht, hs, htop, hval, hrank, hne]
  · intro s top c ht hs htop hchoice hrank hne
    simp [aiStep, ht, hs, htop, hchoice, hrank, hne]

/-- Witness for C5 (amended): concrete accepted non-eight plays with a
non-empty remaining hand after which the override is null, for both
actors. -/
theorem claim5_noneight_clears_override_witness :
    ((handlePlayCard
        { initialState with
            status := GameStatus.playing
            playerHand := [Card.mk 0 Suit.hearts Rank.A, Card.mk 1 Suit.hearts Rank.two]
            discardPile := [Card.mk 12 Suit.hearts Rank.K]
            currentSuit := some Suit.hearts }
        (Card.mk 0 Suit.hearts Rank.A)).currentSuit = none) ∧
    ((aiStep
        { initialState with
            currentTurn := Turn.ai
            status := GameStatus.playing
            aiHand := [Card.mk 0 Suit.hearts Rank.A, Card.mk 1 Suit.hearts Rank.two]
            discardPile := [Card.mk 12 Suit.hearts Rank.K] }).currentSuit = none) := by
  constructor
  · exact claim5_noneight_clears_override.1 _ _ _ rfl rfl rfl (by decide)
      (by decide) (by decide)
  · exact claim5_noneight_clears_override.2 _ (Card.mk 12 Suit.hearts Rank.K)
      (Card.mk 0 Suit.hearts Rank.A) rfl rfl rfl (by decide) (by decide) (by decide)

/-- C7: a fresh deal of any shuffled deck whose 36-card remainder holds at
least one non-eight yields 8 player cards (the first 8 of the shuffle), 8
AI cards (the next 8), a single non-eight discard, and a 35-card deck. -/
theorem claim7_fresh_deal_shape :
    ∀ fullDeck : List Card, fullDeck.Perm createDeck →
      (∃ c ∈ fullDeck.drop 16, c.rank ≠ Rank.eight) →
      ∃ st, initGame fullDeck = some st ∧
        st.playerHand = fullDeck.take 8 ∧ st.playerHand.length = 8 ∧
        st.aiHand = (fullDeck.drop 8).take 8 ∧ st.aiHand.length = 8 ∧
        st.discardPile.length = 1 ∧
        (∀ c ∈ st.discardPile, c.rank ≠ Rank.eight) ∧
        st.deck.length = 35 := by
  intro fullDeck hperm hne
  have hlen : fullDeck.length = 52 := by
    rw [hperm.length_eq]; rfl
  have hdw : (fullDeck.drop 16).dropWhile (fun c => c.rank == Rank.eight) ≠ [] := by
    rw [Ne, List.dropWhile_eq_nil_iff]
    push_neg
    obtain ⟨c, hc, hcr⟩ := hne
    exact ⟨c, hc, by simpa using hcr⟩
  obtain ⟨c, rest, hcr⟩ :
      ∃ c rest, (fullDeck.drop 16).dropWhile (fun c => c.rank == Rank.eight) =
        c :: rest := by
    cases h : (fullDeck.drop 16).dropWhile (fun c => c.rank == Rank.eight) with
    | nil => exact absurd h hdw
    | cons c rest => exact ⟨c, rest, rfl⟩
  have hcne : c.rank ≠ Rank.eight := by
    have h8 := List.head?_dropWhile_not (fun c => c.rank == Rank.eight)
      (fullDeck.drop 16)
    rw [hcr] at h8
    simpa using h8
  have hlsum :
      ((fullDeck.drop 16).takeWhile (fun c => c.rank == Rank.eight)).length +
        (c :: rest).length = 36 := by
    rw [← hcr, ← List.length_append, List.takeWhile_append_dropWhile]
    simp [hlen]
  refine ⟨{ deck := (fullDeck.drop 16).takeWhile (fun c => c.rank == Rank.eight) ++ rest
            playerHand := fullDeck.take 8
            aiHand := (fullDeck.drop 8).take 8
            discardPile := [c]
            currentTurn := Turn.player
            status := GameStatus.playing
            winner := none
            pendingSuitChange := false
            currentSuit := none },
    by simp [initGame, hcr], rfl, ?_, rfl, ?_, rfl, ?_, ?_⟩
  · simp [hlen]
  · simp [hlen]
  · intro x hx
    simp only [List.mem_singleton] at hx
    exact hx ▸ hcne
  · simp only [List.length_append]
    simp only [List.length_cons] at hlsum
    omega

/-- Witness for C7: the identity shuffle deals the canonical deck into the
stated shape. -/
theorem claim7_fresh_deal_shape_witness :
    ∃ st, initGame createDeck = some st ∧
        st.playerHand = createDeck.take 8 ∧ st.playerHand.length = 8 ∧
        st.aiHand = (createDeck.drop 8).take 8 ∧ st.aiHand.length = 8 ∧
        st.discardPile.length = 1 ∧
        (∀ c ∈ st.discardPile, c.rank ≠ Rank.eight) ∧
        st.deck.length = 35 :=
  claim7_fresh_deal_shape createDeck (List.Perm.refl _)
    ⟨Card.mk 16 Suit.diamonds Rank.four, by decide, by decide⟩

/-- Invariant relating the pending-suit flag to the status. -/
def PendingInv (s : GameState) : Prop :=
  s.pendingSuitChange = true ↔ s.status = GameStatus.suit_selection

/-- A completed deal satisfies the pending-suit invariant. -/
lemma pendingInv_initGame (fullDeck : List Card) (st : GameState)
    (h : initGame fullDeck = some st) : PendingInv st := by
  simp only [initGame] at h
  rcases hdw : (fullDeck.drop 16).dropWhile (fun c => c.rank == Rank.eight) with
    _ | ⟨c, rest⟩ <;> rw [hdw] at h
  · exact absurd h (by simp)
  · simp only [Option.some.injEq] at h
    rw [← h]
    simp [PendingInv]

/-- The pending flag is down whenever the status is `playing` and the
invariant holds. -/
lemma pending_false_of_playing (s : GameState) (h : PendingInv s)
    (hs : s.status = GameStatus.playing) : s.pendingSuitChange = false := by
  cases hpc : s.pendingSuitChange
  · rfl
  · have := h.mp hpc
    rw [hs] at this
    cases this

/-- Action `handlePlayCard` preserves the pending-suit invariant. -/
lemma pendingInv_play (s : GameState) (card : Card) (h : PendingInv s) :
    PendingInv (handlePlayCard s card) := by
  by_cases ht : s.currentTurn = Turn.player
  · by_cases hs : s.status = GameStatus.playing
    · have hp : s.pendingSuitChange = false := pending_false_of_playing s h hs
      rcases htop : s.discardPile.getLast? with _ | top
      · simpa [PendingInv, handlePlayCard, ht, hs, htop] using h
      · by_cases hval : isValidMove card top s.currentSuit = true
        · by_cases hemp : s.playerHand.filter (fun c => c.id != card.id) = []
          · simp [PendingInv, handlePlayCard, ht, hs, htop, hval, hemp, hp]
          · by_cases h8 : card.rank = Rank.eight
            · simp [PendingInv, handlePlayCard, ht, hs, htop, hval, hemp, h8]
            · simp [PendingInv, handlePlayCard, ht, hs, htop, hval, hemp, h8,
                hp]
        · have hv : isValidMove card top s.currentSuit = false := by
            simpa using hval
          simpa [PendingInv, handlePlayCard, ht, hs, htop, hv] using h
    · simpa [PendingInv, handlePlayCard, hs] using h
  · simpa [PendingInv, handlePlayCard, ht] using h

/-- Action `handleDrawCard` preserves the pending-suit invariant. -/
lemma pendingInv_draw (s : GameState) (h : PendingInv s) :
    PendingInv (handleDrawCard s) := by
  unfold PendingInv handleDrawCard at *
  split
  · exact h
  · split <;> simpa using h

/-- Action `handleSuitSelect` establishes the pending-suit invariant outright. -/
lemma pendingInv_select (s : GameState) (suit : Suit) :
    PendingInv (handleSuitSelect s suit) := by
  simp [PendingInv, handleSuitSelect]

/-- The AI step preserves the pending-suit invariant. -/
lemma pendingInv_ai (s : GameState) (h : PendingInv s) :
    PendingInv (aiStep s) := by
  by_cases ht : s.currentTurn = Turn.ai
  · by_cases hs : s.status = GameStatus.playing
    · have hp : s.pendingSuitChange = false := pending_false_of_playing s h hs
      rcases htop : s.discardPile.getLast? with _ | top
      · simpa [PendingInv, aiStep, ht, hs, htop] using h
      · rcases hchoice : aiCardToPlay s top with _ | c
        · rcases hd : s.deck with _ | ⟨d, rest⟩
          · simpa [PendingInv, aiStep, ht, hs, htop, hchoice, hd] using h
          · simpa [PendingInv, aiStep, ht, hs, htop, hchoice, hd] using h
        · by_cases hemp : s.aiHand.filter (fun x => x.id != c.id) = []
          · simp [PendingInv, aiStep, ht, hs, htop, hchoice, hemp, hp]
          · by_cases h8 : c.rank = Rank.eight
            · simp [PendingInv, aiStep, ht, hs, htop, hchoice, hemp, h8, hp,
                hs]
            · simp [PendingInv, aiStep, ht, hs, htop, hchoice, hemp, h8, hp,
                hs]
    · simpa [PendingInv, aiStep, hs] using h
  · simpa [PendingInv, aiStep, ht] using h

/-- C10: in every reachable session state, `pendingSuitChange` is true
exactly when the status is `suit_selection`. -/
theorem claim10_pending_iff_suit_selection :
    ∀ s, Reachable s →
      (s.pendingSuitChange = true ↔ s.status = GameStatus.suit_selection) := by
  intro s h
  induction h with
  | boot => simp [initialState]
  | deal fullDeck st hperm hinit => exact pendingInv_initGame fullDeck st hinit
  | play s card hr hmem ih => exact pendingInv_play s card ih
  | draw s hr ih => exact pendingInv_draw s ih
  | select s suit hr ih => exact pendingInv_select s suit
  | ai s hr ih => exact pendingInv_ai s ih

/-- Witness for C10 at the reachable dealt state `stDeal`. -/
theorem claim10_pending_iff_suit_selection_witness :
    stDeal.pendingSuitChange = true ↔ stDeal.status = GameStatus.suit_selection :=
  claim10_pending_iff_suit_selection stDeal
    (Reachable.deal createDeck stDeal (List.Perm.refl _) rfl)

/-- The card the AI chooses is one of its playable cards. -/
lemma aiCardToPlay_mem (s : GameState) (top : Card) (c : Card)
    (h : aiCardToPlay s top = some c) : c ∈ playableCards s top := by
  unfold aiCardToPlay at h
  rcases hf : (playableCards s top).find? (fun c => c.rank != Rank.eight) with
    _ | d
  · rw [hf] at h
    obtain ⟨ys, hys⟩ := List.head?_eq_some_iff.mp h
    simp [hys]
  · rw [hf] at h
    cases h
    exact List.mem_of_find?_eq_some hf

/-- C6: with the AI to move during `playing`, if some hand card is valid
the AI plays the first non-eight valid card in hand order (an eight only
when every playable card is an eight), appending it to the discard pile;
if no card is valid it draws the front deck card when the deck is
non-empty and otherwise forfeits, and in both of those cases the turn
passes to the player. -/
theorem claim6_ai_policy :
    ∀ s top, s.currentTurn = Turn.ai → s.status = GameStatus.playing →
      s.discardPile.getLast? = some top →
      (playableCards s top = [] → s.deck = [] →
          aiStep s = { s with currentTurn := Turn.player }) ∧
      (∀ d rest, playableCards s top = [] → s.deck = d :: rest →
          aiStep s =
            { s with
                deck := rest
                aiHand := s.aiHand ++ [d]
                currentTurn := Turn.player }) ∧
      (playableCards s top ≠ [] → ∃ c, aiCardToPlay s top = some c) ∧
      (∀ c,
          (s.aiHand.filter
              (fun x => isValidMove x top s.currentSuit &&
                x.rank != Rank.eight)).head? = some c →
          aiCardToPlay s top = some c) ∧
      (∀ c, aiCardToPlay s top = some c →
          c ∈ playableCards s top ∧
          (c.rank = Rank.eight → ∀ p ∈ playableCards s top,
            p.rank = Rank.eight) ∧
          (aiStep s).discardPile = s.discardPile ++ [c]) := by
  intro s top ht hs htop
  refine ⟨?_, ?_, ?_, ?_, ?_⟩
  · intro hp hd
    simp [aiStep, ht, hs, htop, aiCardToPlay, hp, hd]
  · intro d rest hp hd
    simp [aiStep, ht, hs, htop, aiCardToPlay, hp, hd]
  · intro hp
    unfold aiCardToPlay
    rcases hf : (playableCards s top).find? (fun c => c.rank != Rank.eight) with
      _ | d
    · rcases hpc : playableCards s top with _ | ⟨a, l⟩
      · exact absurd hpc hp
      · rw [hpc] at hf
        exact ⟨a, by simp [hpc, hf]⟩
    · exact ⟨d, by simp [hf]⟩
  · intro c hc
    rw [List.filter_head?] at hc
    unfold aiCardToPlay playableCards
    rw [List.find?_filter]
    simp only [Bool.decide_and, Bool.decide_eq_true]
    rw [hc]
  · intro c hc
    refine ⟨aiCardToPlay_mem s top c hc, ?_, ?_⟩
    · intro h8 p hp
      unfold aiCardToPlay at hc
      rcases hf : (playableCards s top).find? (fun c => c.rank != Rank.eight)
        with _ | d
      · have hall := List.find?_eq_none.mp hf p hp
        simpa using hall
      · rw [hf] at hc
        cases hc
        have := List.find?_some hf
        rw [h8] at this
        simp at this
    · by_cases hemp : s.aiHand.filter (fun x => x.id != c.id) = []
      · simp [aiStep, ht, hs, htop, hc, hemp]
      · by_cases h8 : c.rank = Rank.eight
        · simp [aiStep, ht, hs, htop, hc, hemp, h8]
        · simp [aiStep, ht, hs, htop, hc, hemp, h8]

/-- Witness for C6 at concrete states: a forfeit with an empty deck, a
draw with a non-empty deck, and a play where the first valid non-eight in
hand order is chosen. -/
theorem claim6_ai_policy_witness :
    (aiStep
        { initialState with
            currentTurn := Turn.ai
            status := GameStatus.playing
            aiHand := [Card.mk 0 Suit.hearts Rank.A]
            discardPile := [Card.mk 40 Suit.spades Rank.two] } =
      { initialState with
          currentTurn := Turn.player
          status := GameStatus.playing
          aiHand := [Card.mk 0 Suit.hearts Rank.A]
          discardPile := [Card.mk 40 Suit.spades Rank.two] }) ∧
    (aiCardToPlay
        { initialState with
            currentTurn := Turn.ai
            status := GameStatus.playing
            aiHand := [Card.mk 7 Suit.hearts Rank.eight,
              Card.mk 41 Suit.spades Rank.three,
              Card.mk 42 Suit.spades Rank.four]
            discardPile := [Card.mk 40 Suit.spades Rank.two] }
        (Card.mk 40 Suit.spades Rank.two) =
      some (Card.mk 41 Suit.spades Rank.three)) := by
  constructor
  · exact (claim6_ai_policy
      { initialState with
          currentTurn := Turn.ai
          status := GameStatus.playing
          aiHand := [Card.mk 0 Suit.hearts Rank.A]
          discardPile := [Card.mk 40 Suit.spades Rank.two] }
      (Card.mk 40 Suit.spades Rank.two) rfl rfl rfl).1 (by decide) rfl
  · exact (claim6_ai_policy
      { initialState with
          currentTurn := Turn.ai
          status := GameStatus.playing
          aiHand := [Card.mk 7 Suit.hearts Rank.eight,
            Card.mk 41 Suit.spades Rank.three,
            Card.mk 42 Suit.spades Rank.four]
          discardPile := [Card.mk 40 Suit.spades Rank.two] }
      (Card.mk 40 Suit.spades Rank.two) rfl rfl rfl).2.2.2.1
      (Card.mk 41 Suit.spades Rank.three) (by decide)

/-- Inserting into the sorted key list is a permutation of consing. -/
lemma insertDescBy_perm (count : Suit → Nat) :
    ∀ (l : List Suit) (s : Suit), (insertDescBy count l s).Perm (s :: l) := by
  intro l s
  induction l with
  | nil => simp [insertDescBy]
  | cons t ts ih =>
    unfold insertDescBy
    split
    · exact List.Perm.refl _
    · exact (ih.cons t).trans (List.Perm.swap s t ts)

/-- The stable descending sort permutes its input. -/
lemma sortDescBy_perm (count : Suit → Nat) (l : List Suit) :
    (sortDescBy count l).Perm l := by
  suffices h : ∀ (l acc : List Suit),
      (l.foldl (insertDescBy count) acc).Perm (acc ++ l) by
    simpa [sortDescBy] using h l []
  intro l
  induction l with
  | nil => simp
  | cons x xs ih =>
    intro acc
    refine (ih (insertDescBy count acc x)).trans ?_
    have h1 := (insertDescBy_perm count acc x).append_right xs
    exact h1.trans List.perm_middle.symm

/-- The head of the insertion result dominates all its members whenever
the head of the input dominated all of the input's members. -/
lemma insertDescBy_head_max (count : Suit → Nat) (l : List Suit) (s : Suit)
    (hyp : ∀ x ∈ l, ∀ hd, l.head? = some hd → count x ≤ count hd) :
    ∀ x ∈ insertDescBy count l s, ∀ hd,
      (insertDescBy count l s).head? = some hd → count x ≤ count hd := by
  cases l with
  | nil =>
    intro x hx hd hhd
    simp [insertDescBy] at hx hhd
    subst hx
    subst hhd
    exact Nat.le_refl _
  | cons t ts =>
    intro x hx hd hhd
    unfold insertDescBy at hx hhd
    by_cases hc : count t < count s
    · rw [if_pos hc] at hx hhd
      simp only [List.head?_cons, Option.some.injEq] at hhd
      subst hhd
      rcases List.mem_cons.mp hx with rfl | hx'
      · exact Nat.le_refl _
      · rcases List.mem_cons.mp hx' with rfl | hx''
        · exact Nat.le_of_lt hc
        · exact Nat.le_trans (hyp x (List.mem_cons_of_mem t hx'') t rfl)
            (Nat.le_of_lt hc)
    · rw [if_neg hc] at hx hhd
      simp only [List.head?_cons, Option.some.injEq] at hhd
      subst hhd
      rcases List.mem_cons.mp hx with rfl | hx'
      · exact Nat.le_refl _
      · have hmem : x ∈ s :: ts :=
          (insertDescBy_perm count ts s).mem_iff.mp hx'
        rcases List.mem_cons.mp hmem with rfl | hx''
        · exact Nat.le_of_not_lt hc
        · exact hyp x (List.mem_cons_of_mem t hx'') t rfl

/-- The head of the stable descending sort dominates every member. -/
lemma sortDescBy_head_max (count : Suit → Nat) (l : List Suit) :
    ∀ x ∈ sortDescBy count l, ∀ hd, (sortDescBy count l).head? = some hd →
      count x ≤ count hd := by
  suffices h : ∀ (l acc : List Suit),
      (∀ x ∈ acc, ∀ hd, acc.head? = some hd → count x ≤ count hd) →
      ∀ x ∈ l.foldl (insertDescBy count) acc, ∀ hd,
        (l.foldl (insertDescBy count) acc).head? = some hd →
        count x ≤ count hd by
    exact h l [] (by simp)
  intro l
  induction l with
  | nil =>
    intro acc hacc
    simpa using hacc
  | cons y ys ih =>
    intro acc hacc
    exact ih _ (insertDescBy_head_max count acc y hacc)

/-- Membership in the tallied suit keys is membership among the hand's
suits. -/
lemma mem_suitKeys (hand : List Card) (t : Suit) :
    t ∈ suitKeys hand ↔ t ∈ hand.map Card.suit := by
  suffices h : ∀ (hand : List Card) (acc : List Suit) (t : Suit),
      t ∈ hand.foldl
          (fun acc c => if c.suit ∈ acc then acc else acc ++ [c.suit]) acc ↔
        t ∈ acc ∨ t ∈ hand.map Card.suit by
    simpa [suitKeys] using h hand [] t
  intro hand
  induction hand with
  | nil => simp
  | cons c cs ih =>
    intro acc t
    simp only [List.foldl_cons, List.map_cons, List.mem_cons]
    rw [ih]
    by_cases hc : c.suit ∈ acc
    · rw [if_pos hc]
      constructor
      · rintro (h | h)
        · exact Or.inl h
        · exact Or.inr (Or.inr h)
      · rintro (h | h | h)
        · exact Or.inl h
        · exact Or.inl (h ▸ hc)
        · exact Or.inr h
    · rw [if_neg hc]
      simp only [List.mem_append, List.mem_singleton]
      tauto

/-- A suit absent from the hand has tally zero. -/
lemma suitCount_eq_zero (hand : List Card) (t : Suit)
    (h : t ∉ hand.map Card.suit) : suitCount hand t = 0 := by
  unfold suitCount
  rw [List.length_eq_zero, List.filter_eq_nil_iff]
  intro a ha
  simp only [beq_iff_eq]
  intro hsuit
  exact h (hsuit ▸ List.mem_map_of_mem Card.suit ha)

/-- For a non-empty hand, `aiBestSuit` is a suit of the hand whose tally
dominates every suit's tally, and the sorted key list is non-empty, so the
fixed `hearts` fallback is not consulted. -/
lemma aiBestSuit_spec (hand : List Card) (hne : hand ≠ []) :
    aiBestSuit hand ∈ hand.map Card.suit ∧
      (∀ t, suitCount hand t ≤ suitCount hand (aiBestSuit hand)) ∧
      sortDescBy (suitCount hand) (suitKeys hand) ≠ [] := by
  have hkeysne : suitKeys hand ≠ [] := by
    intro hk
    cases hand with
    | nil => exact hne rfl
    | cons c cs =>
      have hcs : c.suit ∈ suitKeys (c :: cs) :=
        (mem_suitKeys _ _).mpr (by simp)
      rw [hk] at hcs
      cases hcs
  have hperm := sortDescBy_perm (suitCount hand) (suitKeys hand)
  have hsne : sortDescBy (suitCount hand) (suitKeys hand) ≠ [] := by
    intro h0
    rw [h0] at hperm
    exact hkeysne (hperm.symm.eq_nil ▸ rfl)
  obtain ⟨hd, tl, hsort⟩ :
      ∃ hd tl, sortDescBy (suitCount hand) (suitKeys hand) = hd :: tl := by
    rcases hq : sortDescBy (suitCount hand) (suitKeys hand) with _ | ⟨hd, tl⟩
    · exact absurd hq hsne
    · exact ⟨hd, tl, rfl⟩
  have hbest : aiBestSuit hand = hd := by
    simp [aiBestSuit, hsort]
  have hdmem : hd ∈ suitKeys hand := hperm.mem_iff.mp (by simp [hsort])
  refine ⟨?_, ?_, hsne⟩
  · rw [hbest]
    exact (mem_suitKeys _ _).mp hdmem
  · intro t
    rw [hbest]
    by_cases htk : t ∈ suitKeys hand
    · exact sortDescBy_head_max (suitCount hand) (suitKeys hand) t
        (hperm.mem_iff.mpr htk) hd (by simp [hsort])
    · rw [suitCount_eq_zero hand t (fun hm => htk ((mem_suitKeys _ _).mpr hm))]
      exact Nat.zero_le _

/-- C9: when the AI plays an eight and keeps a non-empty hand, the suit it
declares is `aiBestSuit` of the remaining hand: a suit actually present in
the remaining hand whose tally is maximal, and the sorted tally list is
non-empty so the fixed `hearts` fallback is not the source of the value. -/
theorem claim9_ai_eight_suit_choice :
    ∀ s top c, s.currentTurn = Turn.ai → s.status = GameStatus.playing →
      s.discardPile.getLast? = some top → aiCardToPlay s top = some c →
      c.rank = Rank.eight →
      ∀ nah, nah = s.aiHand.filter (fun x => x.id != c.id) → nah ≠ [] →
      (aiStep s).currentSuit = some (aiBestSuit nah) ∧
      aiBestSuit nah ∈ nah.map Card.suit ∧
      (∀ t, suitCount nah t ≤ suitCount nah (aiBestSuit nah)) ∧
      sortDescBy (suitCount nah) (suitKeys nah) ≠ [] := by
  intro s top c ht hs htop hchoice h8 nah hnah hne
  subst hnah
  refine ⟨?_, (aiBestSuit_spec _ hne).1, (aiBestSuit_spec _ hne).2.1,
    (aiBestSuit_spec _ hne).2.2⟩
  simp [aiStep, ht, hs, htop, hchoice, h8, hne]

/-- Witness for C9 at a concrete state: the AI's only playable card is the
eight of clubs; it declares hearts, the majority suit of its remaining
hand. -/
theorem claim9_ai_eight_suit_choice_witness :
    (aiStep
        { initialState with
            currentTurn := Turn.ai
            status := GameStatus.playing
            aiHand := [Card.mk 33 Suit.clubs Rank.eight,
              Card.mk 0 Suit.hearts Rank.A, Card.mk 1 Suit.hearts Rank.two]
            discardPile := [Card.mk 48 Suit.spades Rank.ten] }).currentSuit =
      some (aiBestSuit [Card.mk 0 Suit.hearts Rank.A,
        Card.mk 1 Suit.hearts Rank.two]) ∧
    aiBestSuit [Card.mk 0 Suit.hearts Rank.A, Card.mk 1 Suit.hearts Rank.two] ∈
      ([Card.mk 0 Suit.hearts Rank.A,
        Card.mk 1 Suit.hearts Rank.two].map Card.suit) := by
  have h := claim9_ai_eight_suit_choice
    { initialState with
        currentTurn := Turn.ai
        status := GameStatus.playing
        aiHand := [Card.mk 33 Suit.clubs Rank.eight,
          Card.mk 0 Suit.hearts Rank.A, Card.mk 1 Suit.hearts Rank.two]
        discardPile := [Card.mk 48 Suit.spades Rank.ten] }
    (Card.mk 48 Suit.spades Rank.ten) (Card.mk 33 Suit.clubs Rank.eight)
    rfl rfl rfl (by decide) rfl
    [Card.mk 0 Suit.hearts Rank.A, Card.mk 1 Suit.hearts Rank.two]
    (by decide) (by decide)
  exact ⟨h.1, h.2.1⟩

/-- All cards of a session as one list, in pile order. -/
def cardsList (s : GameState) : List Card :=
  s.deck ++ s.playerHand ++ s.aiHand ++ s.discardPile

/-- Function `cardsOf` is the coercion of `cardsList`. -/
lemma cardsOf_eq_coe (s : GameState) :
    cardsOf s = (cardsList s : Multiset Card) := by
  simp [cardsOf, cardsList, Multiset.coe_add]

/-- Removing by id and re-appending the card is a permutation of the
original hand, provided ids are unique in the hand and the card belongs
to it. -/
lemma filter_ne_id_append_perm :
    ∀ (l : List Card) (a : Card), (l.map Card.id).Nodup → a ∈ l →
      (l.filter (fun c => c.id != a.id) ++ [a]).Perm l := by
  intro l a
  induction l with
  | nil =>
    intro _ hmem
    cases hmem
  | cons x t ih =>
    intro hnd hmem
    rw [List.map_cons, List.nodup_cons] at hnd
    by_cases hid : x.id = a.id
    · have ha : a = x := by
        rcases List.mem_cons.mp hmem with h | h
        · exact h
        · exfalso
          apply hnd.1
          rw [hid]
          exact List.mem_map_of_mem Card.id h
      subst ha
      have hfx : (a :: t).filter (fun c => c.id != a.id) =
          t.filter (fun c => c.id != a.id) := by
        simp [List.filter_cons]
      have hft : t.filter (fun c => c.id != a.id) = t := by
        rw [List.filter_eq_self]
        intro b hb
        simp only [bne_iff_ne, ne_eq, decide_not, Bool.not_eq_eq_eq_not,
          Bool.not_true, decide_eq_false_iff_not]
        intro hbx
        exact hnd.1 (hbx ▸ List.mem_map_of_mem Card.id hb)
      rw [hfx, hft]
      exact List.perm_append_singleton a t
    · have hmem2 : a ∈ t := by
        rcases List.mem_cons.mp hmem with h | h
        · exact absurd (congrArg Card.id h.symm) hid
        · exact h
      have hfx : (x :: t).filter (fun c => c.id != a.id) =
          x :: t.filter (fun c => c.id != a.id) := by
        simp [List.filter_cons, hid]
      rw [hfx]
      exact (ih hnd.2 hmem2).cons x

/-- A complete session has pairwise-distinct card ids. -/
lemma deckComplete_nodup_ids (s : GameState) (h : DeckComplete s) :
    ((cardsList s).map Card.id).Nodup := by
  have hperm : (cardsList s).Perm createDeck := by
    rw [← Multiset.coe_eq_coe, ← cardsOf_eq_coe s]
    exact h
  exact (hperm.map Card.id).nodup_iff.mpr (by decide)

/-- The player hand of a complete session has distinct ids. -/
lemma playerHand_ids_nodup (s : GameState) (h : DeckComplete s) :
    (s.playerHand.map Card.id).Nodup := by
  refine List.Nodup.sublist (List.Sublist.map Card.id ?_)
    (deckComplete_nodup_ids s h)
  have h1 : s.playerHand.Sublist (s.deck ++ s.playerHand) :=
    List.sublist_append_right _ _
  have h2 : (s.deck ++ s.playerHand).Sublist
      (s.deck ++ s.playerHand ++ s.aiHand) := List.sublist_append_left _ _
  have h3 : (s.deck ++ s.playerHand ++ s.aiHand).Sublist (cardsList s) :=
    List.sublist_append_left _ _
  exact (h1.trans h2).trans h3

/-- The AI hand of a complete session has distinct ids. -/
lemma aiHand_ids_nodup (s : GameState) (h : DeckComplete s) :
    (s.aiHand.map Card.id).Nodup := by
  refine List.Nodup.sublist (List.Sublist.map Card.id ?_)
    (deckComplete_nodup_ids s h)
  have h1 : s.aiHand.Sublist (s.deck ++ s.playerHand ++ s.aiHand) :=
    List.sublist_append_right _ _
  have h2 : (s.deck ++ s.playerHand ++ s.aiHand).Sublist (cardsList s) :=
    List.sublist_append_left _ _
  exact h1.trans h2

/-- Moving a hand card onto the discard pile preserves the card multiset
(player-hand position). -/
lemma play_move_cards (deck ph ai dp : List Card) (card : Card)
    (hnd : (ph.map Card.id).Nodup) (hmem : card ∈ ph) :
    ((deck : Multiset Card) + ↑(ph.filter (fun c => c.id != card.id)) +
        ↑ai + ↑(dp ++ [card])) =
      ((deck : Multiset Card) + ↑ph + ↑ai + ↑dp) := by
  have hph : ((ph.filter (fun c => c.id != card.id) : Multiset Card) +
      ↑[card]) = (ph : Multiset Card) := by
    rw [Multiset.coe_add]
    exact Multiset.coe_eq_coe.mpr (filter_ne_id_append_perm ph card hnd hmem)
  calc ((deck : Multiset Card) + ↑(ph.filter (fun c => c.id != card.id)) +
        ↑ai + ↑(dp ++ [card]))
      = ↑deck + ↑(ph.filter (fun c => c.id != card.id)) + ↑ai +
          (↑dp + ↑[card]) := by rw [← Multiset.coe_add dp [card]]
    _ = ↑deck + (↑(ph.filter (fun c => c.id != card.id)) + ↑[card]) + ↑ai +
          ↑dp := by abel
    _ = ↑deck + ↑ph + ↑ai + ↑dp := by rw [hph]

/-- Moving a hand card onto the discard pile preserves the card multiset
(AI-hand position). -/
lemma ai_move_cards (deck ph ai dp : List Card) (card : Card)
    (hnd : (ai.map Card.id).Nodup) (hmem : card ∈ ai) :
    ((deck : Multiset Card) + ↑ph +
        ↑(ai.filter (fun c => c.id != card.id)) + ↑(dp ++ [card])) =
      ((deck : Multiset Card) + ↑ph + ↑ai + ↑dp) := by
  have hai : ((ai.filter (fun c => c.id != card.id) : Multiset Card) +
      ↑[card]) = (ai : Multiset Card) := by
    rw [Multiset.coe_add]
    exact Multiset.coe_eq_coe.mpr (filter_ne_id_append_perm ai card hnd hmem)
  calc ((deck : Multiset Card) + ↑ph +
        ↑(ai.filter (fun c => c.id != card.id)) + ↑(dp ++ [card]))
      = ↑deck + ↑ph + ↑(ai.filter (fun c => c.id != card.id)) +
          (↑dp + ↑[card]) := by rw [← Multiset.coe_add dp [card]]
    _ = ↑deck + ↑ph + (↑(ai.filter (fun c => c.id != card.id)) + ↑[card]) +
          ↑dp := by abel
    _ = ↑deck + ↑ph + ↑ai + ↑dp := by rw [hai]

/-- Drawing the front deck card into a hand preserves the card multiset
(player-hand position). -/
lemma draw_move_cards_player (rest ph ai dp : List Card) (d : Card) :
    ((rest : Multiset Card) + ↑(ph ++ [d]) + ↑ai + ↑dp) =
      ((d :: rest : List Card) : Multiset Card) + ↑ph + ↑ai + ↑dp := by
  have hcons : ((d :: rest : List Card) : Multiset Card) = ↑[d] + ↑rest := by
    rw [Multiset.coe_add, List.singleton_append]
  rw [hcons, ← Multiset.coe_add]
  abel

/-- Drawing the front deck card into a hand preserves the card multiset
(AI-hand position). -/
lemma draw_move_cards_ai (rest ph ai dp : List Card) (d : Card) :
    ((rest : Multiset Card) + ↑ph + ↑(ai ++ [d]) + ↑dp) =
      ((d :: rest : List Card) : Multiset Card) + ↑ph + ↑ai + ↑dp := by
  have hcons : ((d :: rest : List Card) : Multiset Card) = ↑[d] + ↑rest := by
    rw [Multiset.coe_add, List.singleton_append]
  rw [hcons, ← Multiset.coe_add]
  abel

/-- C1: a completed deal of any shuffled deck accounts for all 52 cards,
and each action — `handlePlayCard` on a hand card, `handleDrawCard`,
`handleSuitSelect`, and the AI step — preserves the invariant that
deck ∪ playerHand ∪ aiHand ∪ discardPile is exactly the 52-card deck with
no duplicates and no omissions. -/
theorem claim1_deck_partition :
    (∀ fullDeck st, fullDeck.Perm createDeck → initGame fullDeck = some st →
        DeckComplete st) ∧
    (∀ s card, DeckComplete s → card ∈ s.playerHand →
        DeckComplete (handlePlayCard s card)) ∧
    (∀ s, DeckComplete s → DeckComplete (handleDrawCard s)) ∧
    (∀ s suit, DeckComplete s → DeckComplete (handleSuitSelect s suit)) ∧
    (∀ s, DeckComplete s → DeckComplete (aiStep s)) := by
  refine ⟨?_, ?_, ?_, ?_, ?_⟩
  · intro fullDeck st hperm hinit
    simp only [initGame] at hinit
    rcases hdw : (fullDeck.drop 16).dropWhile (fun c => c.rank == Rank.eight)
      with _ | ⟨c, rest⟩ <;> rw [hdw] at hinit
    · exact absurd hinit (by simp)
    · simp only [Option.some.injEq] at hinit
      subst hinit
      unfold DeckComplete
      have hfull : (createDeck : Multiset Card) = ↑fullDeck :=
        (Multiset.coe_eq_coe.mpr hperm).symm
      rw [hfull]
      show ((fullDeck.drop 16).takeWhile (fun c => c.rank == Rank.eight) ++
          rest : Multiset Card) + ↑(fullDeck.take 8) +
          ↑((fullDeck.drop 8).take 8) + ↑[c] = ↑fullDeck
      have h1 := List.takeWhile_append_dropWhile
        (p := fun c => c.rank == Rank.eight) (l := fullDeck.drop 16)
      rw [hdw] at h1
      have hsplit : fullDeck.take 8 ++ ((fullDeck.drop 8).take 8 ++
          ((fullDeck.drop 16).takeWhile (fun c => c.rank == Rank.eight) ++
            (c :: rest))) = fullDeck := by
        rw [h1]
        rw [show fullDeck.drop 16 = (fullDeck.drop 8).drop 8 by
          simp [List.drop_drop]]
        rw [List.take_append_drop, List.take_append_drop]
      conv_rhs => rw [← hsplit]
      simp only [← Multiset.coe_add, ← Multiset.cons_coe,
        ← Multiset.singleton_add, Multiset.coe_singleton, Multiset.coe_nil]
      abel
  · intro s card h hmem
    have hnd := playerHand_ids_nodup s h
    by_cases ht : s.currentTurn = Turn.player
    · by_cases hs : s.status = GameStatus.playing
      · rcases htop : s.discardPile.getLast? with _ | top
        · simpa [DeckComplete, handlePlayCard, ht, hs, htop] using h
        · by_cases hval : isValidMove card top s.currentSuit = true
          · by_cases hemp : s.playerHand.filter (fun c => c.id != card.id) = []
            · have hred : handlePlayCard s card =
                  { s with
                      playerHand := []
                      discardPile := s.discardPile ++ [card]
                      status := GameStatus.game_over
                      winner := some Turn.player } := by
                simp [handlePlayCard, ht, hs, htop, hval, hemp]
              unfold DeckComplete
              rw [hred]
              have hkey := play_move_cards s.deck s.playerHand s.aiHand
                s.discardPile card hnd hmem
              rw [hemp] at hkey
              show (s.deck : Multiset Card) + ↑([] : List Card) + ↑s.aiHand +
                  ↑(s.discardPile ++ [card]) = ↑createDeck
              rw [hkey]
              exact h
            · by_cases h8 : card.rank = Rank.eight
              · have hred : handlePlayCard s card =
                    { s with
                        playerHand :=
                          s.playerHand.filter (fun c => c.id != card.id)
                        discardPile := s.discardPile ++ [card]
                        status := GameStatus.suit_selection
                        pendingSuitChange := true } := by
                  simp [handlePlayCard, ht, hs, htop, hval, hemp, h8]
                unfold DeckComplete
                rw [hred]
                show (s.deck : Multiset Card) +
                    ↑(s.playerHand.filter (fun c => c.id != card.id)) +
                    ↑s.aiHand + ↑(s.discardPile ++ [card]) = ↑createDeck
                rw [play_move_cards s.deck s.playerHand s.aiHand
                  s.discardPile card hnd hmem]
                exact h
              · have hred : handlePlayCard s card =
                    { s with
                        playerHand :=
                          s.playerHand.filter (fun c => c.id != card.id)
                        discardPile := s.discardPile ++ [card]
                        currentTurn := Turn.ai
                        currentSuit := none } := by
                  simp [handlePlayCard, ht, hs, htop, hval, hemp, h8]
                unfold DeckComplete
                rw [hred]
                show (s.deck : Multiset Card) +
                    ↑(s.playerHand.filter (fun c => c.id != card.id)) +
                    ↑s.aiHand + ↑(s.discardPile ++ [card]) = ↑createDeck
                rw [play_move_cards s.deck s.playerHand s.aiHand
                  s.discardPile card hnd hmem]
                exact h
          · have hv : isValidMove card top s.currentSuit = false := by
              simpa using hval
            simpa [DeckComplete, handlePlayCard, ht, hs, htop, hv] using h
      · simpa [DeckComplete, handlePlayCard, hs] using h
    · simpa [DeckComplete, handlePlayCard, ht] using h
  · intro s h
    by_cases ht : s.currentTurn = Turn.player
    · by_cases hs : s.status = GameStatus.playing
      · rcases hd : s.deck with _ | ⟨d, rest⟩
        · have hred : handleDrawCard s = { s with currentTurn := Turn.ai } := by
            simp [handleDrawCard, ht, hs, hd]
          unfold DeckComplete
          rw [hred]
          exact h
        · have hred : handleDrawCard s =
              { s with
                  deck := rest
                  playerHand := s.playerHand ++ [d]
                  currentTurn := Turn.ai } := by
            simp [handleDrawCard, ht, hs, hd]
          unfold DeckComplete
          rw [hred]
          show (rest : Multiset Card) + ↑(s.playerHand ++ [d]) + ↑s.aiHand +
              ↑s.discardPile = ↑createDeck
          rw [draw_move_cards_player rest s.playerHand s.aiHand
            s.discardPile d, ← hd]
          exact h
      · simpa [DeckComplete, handleDrawCard, hs] using h
    · simpa [DeckComplete, handleDrawCard, ht] using h
  · intro s suit h
    exact h
  · intro s h
    by_cases ht : s.currentTurn = Turn.ai
    · by_cases hs : s.status = GameStatus.playing
      · rcases htop : s.discardPile.getLast? with _ | top
        · simpa [DeckComplete, aiStep, ht, hs, htop] using h
        · rcases hchoice : aiCardToPlay s top with _ | c
          · rcases hd : s.deck with _ | ⟨d, rest⟩
            · have hred : aiStep s = { s with currentTurn := Turn.player } := by
                simp [aiStep, ht, hs, htop, hchoice, hd]
              unfold DeckComplete
              rw [hred]
              exact h
            · have hred : aiStep s =
                  { s with
                      deck := rest
                      aiHand := s.aiHand ++ [d]
                      currentTurn := Turn.player } := by
                simp [aiStep, ht, hs, htop, hchoice, hd]
              unfold DeckComplete
              rw [hred]
              show (rest : Multiset Card) + ↑s.playerHand +
                  ↑(s.aiHand ++ [d]) + ↑s.discardPile = ↑createDeck
              rw [draw_move_cards_ai rest s.playerHand s.aiHand
                s.discardPile d, ← hd]
              exact h
          · have hmem : c ∈ s.aiHand :=
              List.mem_of_mem_filter (aiCardToPlay_mem s top c hchoice)
            have hnd := aiHand_ids_nodup s h
            by_cases hemp : s.aiHand.filter (fun x => x.id != c.id) = []
            · have hred : aiStep s =
                  { s with
                      aiHand := []
                      discardPile := s.discardPile ++ [c]
                      status := GameStatus.game_over
                      winner := some Turn.ai } := by
                simp [aiStep, ht, hs, htop, hchoice, hemp]
              unfold DeckComplete
              rw [hred]
              have hkey := ai_move_cards s.deck s.playerHand s.aiHand
                s.discardPile c hnd hmem
              rw [hemp] at hkey
              show (s.deck : Multiset Card) + ↑s.playerHand +
                  ↑([] : List Card) + ↑(s.discardPile ++ [c]) = ↑createDeck
              rw [hkey]
              exact h
            · by_cases h8 : c.rank = Rank.eight
              · have hred : aiStep s =
                    { s with
                        aiHand := s.aiHand.filter (fun x => x.id != c.id)
                        discardPile := s.discardPile ++ [c]
                        currentSuit := some (aiBestSuit
                          (s.aiHand.filter (fun x => x.id != c.id)))
                        currentTurn := Turn.player } := by
                  simp [aiStep, ht, hs, htop, hchoice, hemp, h8]
                unfold DeckComplete
                rw [hred]
                show (s.deck : Multiset Card) + ↑s.playerHand +
                    ↑(s.aiHand.filter (fun x => x.id != c.id)) +
                    ↑(s.discardPile ++ [c]) = ↑createDeck
                rw [ai_move_cards s.deck s.playerHand s.aiHand
                  s.discardPile c hnd hmem]
                exact h
              · have hred : aiStep s =
                    { s with
                        aiHand := s.aiHand.filter (fun x => x.id != c.id)
                        discardPile := s.discardPile ++ [c]
                        currentTurn := Turn.player
                        currentSuit := none } := by
                  simp [aiStep, ht, hs, htop, hchoice, hemp, h8]
                unfold DeckComplete
                rw [hred]
                show (s.deck : Multiset Card) + ↑s.playerHand +
                    ↑(s.aiHand.filter (fun x => x.id != c.id)) +
                    ↑(s.discardPile ++ [c]) = ↑createDeck
                rw [ai_move_cards s.deck s.playerHand s.aiHand
                  s.discardPile c hnd hmem]
                exact h
      · simpa [DeckComplete, aiStep, hs] using h
    · simpa [DeckComplete, aiStep, ht] using h

/-- Witness for C1: the identity-shuffle deal is complete, and each of the
four actions applied to it keeps the 52-card partition. -/
theorem claim1_deck_partition_witness :
    DeckComplete stDeal ∧
      DeckComplete (handlePlayCard stDeal (Card.mk 0 Suit.hearts Rank.A)) ∧
      DeckComplete (handleDrawCard stDeal) ∧
      DeckComplete (handleSuitSelect stDeal Suit.spades) ∧
      DeckComplete (aiStep stDeal) := by
  have h0 : DeckComplete stDeal :=
    claim1_deck_partition.1 createDeck stDeal (List.Perm.refl _) rfl
  exact ⟨h0,
    claim1_deck_partition.2.1 stDeal (Card.mk 0 Suit.hearts Rank.A) h0
      (by decide),
    claim1_deck_partition.2.2.1 stDeal h0,
    claim1_deck_partition.2.2.2.1 stDeal Suit.spades h0,
    claim1_deck_partition.2.2.2.2 stDeal h0⟩

end CrazyEights
